import Mathlib

/-!
Shallow embedding of `gitcommit.py`, a CLI helper that obtains a git diff,
asks the OpenAI API for commit-message suggestions, normalizes them, adds a
branch-derived task prefix, lets the user choose a message and commits.

Strings are modelled as `List Char`.  Python-level whitespace and the regex
class `\s` are modelled by their ASCII members (Python additionally treats
some Unicode space characters as whitespace; none of the code's behaviour of
interest depends on those).  External effects (subprocess calls, the HTTP
request, the tiktoken count, interactive prompts) are modelled as inputs in
an environment record, and the pipeline is instrumented with an event trace.
-/

namespace GitCommit

abbrev Str := List Char

/-- ASCII whitespace, the characters Python's `str.strip` and the regex
class `\s` accept on ASCII input. -/
def isWs (c : Char) : Bool :=
  c = ' ' || c = '\t' || c = '\n' || c = '\r' || c = '\x0b' || c = '\x0c'

/-- `str.strip()`: remove whitespace from both ends. -/
def stripWs (s : Str) : Str :=
  ((s.dropWhile isWs).reverse.dropWhile isWs).reverse

/-- Python `s.split(sep)` for a single-character separator `c0`
(as used with `'/'` and `'\n'`). -/
def pySplitChar (c0 : Char) : Str → List Str
  | [] => [[]]
  | c :: rest =>
    if c = c0 then [] :: pySplitChar c0 rest
    else
      match pySplitChar c0 rest with
      | [] => [[c]]
      | h :: t => (c :: h) :: t

/-- Python `s.split(sep)` for a two-character separator `[c0, c1]`
(as used with `'--'`): leftmost non-overlapping occurrences. -/
def pySplitOn2 (c0 c1 : Char) : Str → List Str
  | [] => [[]]
  | [c] => [[c]]
  | c :: c2 :: rest =>
    if c = c0 ∧ c2 = c1 then [] :: pySplitOn2 c0 c1 rest
    else
      match pySplitOn2 c0 c1 (c2 :: rest) with
      | [] => [[c]]
      | h :: t => (c :: h) :: t

/-- The portion of `s` before the first occurrence of the separator
`[c0, c1]` (all of `s` if the separator does not occur): the meaning of
Python `s.split(sep)[0]`. -/
def beforeFirst2 (c0 c1 : Char) : Str → Str
  | [] => []
  | [c] => [c]
  | c :: c2 :: rest =>
    if c = c0 ∧ c2 = c1 then []
    else c :: beforeFirst2 c0 c1 (c2 :: rest)

/-- The portion of `s` after the last occurrence of the character `c0`
(all of `s` if `c0` does not occur): the meaning of Python
`s.split(c0)[-1]`. -/
def afterLast (c0 : Char) : Str → Str
  | [] => []
  | c :: rest =>
    if c0 ∈ rest then afterLast c0 rest
    else if c = c0 then rest
    else c :: rest

/-- A quote character, i.e. the regex class `['\"]` (39 is the apostrophe). -/
def isQuote (c : Char) : Bool :=
  c.toNat = 39 || c = '"'

/-- The head of the anchored regex `^(\d+\.|-|\*)`: if `s` starts with a
list marker, the remainder of `s` after it, else `none`.  The alternation
first tries one-or-more digits followed by a literal dot, then `-`, then
`*`; since the branches look at disjoint first characters this is an
ordinary case split. -/
def markerHead (s : Str) : Option Str :=
  if s.takeWhile Char.isDigit = [] then
    match s with
    | '-' :: rest => some rest
    | '*' :: rest => some rest
    | _ => none
  else
    match s.drop (s.takeWhile Char.isDigit).length with
    | '.' :: rest => some rest
    | _ => none

/-- `re.sub(r"^(\d+\.|-|\*)\s+", "", s)`: the whole pattern matches only
when the marker is followed by at least one whitespace character, and the
greedy `\s+` then consumes all of the following whitespace; `^` matches
only at position 0, so at most one removal happens. -/
def dropListMarker (s : Str) : Str :=
  match markerHead s with
  | some (c :: rest) => if isWs c then rest.dropWhile isWs else s
  | _ => s

/-- `re.sub(r"^['\"]", "", s)`: remove one initial quote character. -/
def dropLeadQuote : Str → Str
  | [] => []
  | c :: rest => if isQuote c then rest else c :: rest

/-- `re.sub(r"['\"]$", "", s)`: remove one final quote character.  The
input at this point in `normalize_message_filter` was already stripped, so
it never ends in a newline and `$` means exactly end-of-string. -/
def dropTrailQuote (s : Str) : Str :=
  (dropLeadQuote s.reverse).reverse

/-- `re.sub(r"['\"]:", ":", s)`: replace every leftmost non-overlapping
quote-colon pair by a colon; scanning continues after each match. -/
def subQuoteColon : Str → Str
  | c1 :: c2 :: rest =>
    if isQuote c1 && c2 = ':' then ':' :: subQuoteColon rest
    else c1 :: subQuoteColon (c2 :: rest)
  | s => s

/-- `re.sub(r":['\"]", ":", s)`: replace every leftmost non-overlapping
colon-quote pair by a colon. -/
def subColonQuote : Str → Str
  | c1 :: c2 :: rest =>
    if c1 = ':' && isQuote c2 then ':' :: subColonQuote rest
    else c1 :: subColonQuote (c2 :: rest)
  | s => s

/-- `re.sub(r"\\n", "", s)`: delete every leftmost non-overlapping literal
backslash-n pair. -/
def removeBackslashN : Str → Str
  | c1 :: c2 :: rest =>
    if c1 = '\\' && c2 = 'n' then removeBackslashN rest
    else c1 :: removeBackslashN (c2 :: rest)
  | s => s

/-- `normalize_message_filter`: strip, remove a list marker, one leading and
one trailing quote, quotes adjacent to colons, literal backslash-n pairs,
and strip again. -/
def normalize_message_filter (s : Str) : Str :=
  stripWs (removeBackslashN (subColonQuote (subQuoteColon
    (dropTrailQuote (dropLeadQuote (dropListMarker (stripWs s)))))))

/-- `normalize_messages`: split on newlines, drop the first line, keep the
lines of length greater than one, and normalize each. -/
def normalize_messages (response : Str) : List Str :=
  (((pySplitChar '\n' response).drop 1).filter
    (fun m => decide (1 < m.length))).map normalize_message_filter

/-- `get_prefix_name`, with the current branch (the result of the external
`git rev-parse --abbrev-ref HEAD` call, `None` on failure) passed in:
branches starting with `feature/IOS-` yield the task id of the part before
the first `--` (its last `/`-separated segment) followed by `": "`. -/
def get_prefix_name (branch_name : Option Str) : Str :=
  match branch_name with
  | some b =>
    if ("feature/IOS-".data).isPrefixOf b then
      ((pySplitChar '/' ((pySplitOn2 '-' '-' b).headD [])).getLastD [])
        ++ (':' :: ' ' :: [])
    else []
  | none => []

/-- `add_prefix_to_suggestions`, with the current branch passed in: on a
`feature/IOS-` branch, keep the suggestions whose strip is non-empty and
prepend the task-id prefix to each stripped suggestion; otherwise return
the list unchanged. -/
def add_prefix_to_suggestions (branch_name : Option Str)
    (suggestions : List Str) : List Str :=
  match branch_name with
  | some b =>
    if ("feature/IOS-".data).isPrefixOf b then
      (suggestions.filter (fun s => stripWs s != [])).map
        (fun s =>
          (((pySplitChar '/' ((pySplitOn2 '-' '-' b).headD [])).getLastD [])
            ++ (':' :: ' ' :: [])) ++ stripWs s)
    else suggestions
  | none => suggestions

/-- JSON values, as produced by `response.json()`. -/
inductive Json where
  | null : Json
  | jbool : Bool → Json
  | jnum : Int → Json
  | jstr : Str → Json
  | jarr : List Json → Json
  | jobj : List (Str × Json) → Json

/-- Lookup in a JSON object's key-value list (keys of a parsed JSON object
are unique, so first-match lookup is exact). -/
def jlookupKey (k : Str) : List (Str × Json) → Option Json
  | [] => none
  | (k2, v) :: rest => if k2 = k then some v else jlookupKey k rest

/-- Python `j[k]` for a string key: a value on an object holding the key,
an exception (modelled as `none`) otherwise. -/
def jfield (k : Str) : Json → Option Json
  | .jobj kvs => jlookupKey k kvs
  | _ => none

/-- Python `j[0]`: the first element of a non-empty array, an exception
(modelled as `none`) otherwise. -/
def jindex0 : Json → Option Json
  | .jarr (x :: _) => some x
  | _ => none

/-- The lookup `j['choices'][0]['message']['content']`. -/
def pathLookup (j : Json) : Option Json :=
  (jfield ("choices".data) j).bind (fun c =>
    (jindex0 c).bind (fun m0 =>
      (jfield ("message".data) m0).bind (jfield ("content".data))))

/-- The content at the path when it is a string (a non-string content makes
`normalize_messages` raise inside the same `try`, so it too yields `[]`). -/
def extractContent (j : Json) : Option Str :=
  match pathLookup j with
  | some (.jstr s) => some s
  | _ => none

/-- `process_response`: `[]` for a missing response and whenever the
`choices[0].message.content` lookup raises, else the normalized content. -/
def process_response : Option Json → List Str
  | none => []
  | some j =>
    match extractContent j with
    | some content => normalize_messages content
    | none => []

/-- The configuration record read from `config.json`. -/
structure Config where
  model_name : Str
  openai_api_key : Str
  task_prefix_val : Str
  openai_api_url : Str
  max_token_count : Nat
  temperature : Int
  git_command : List Str
  message_template : Str
deriving DecidableEq

/-- The placeholder value of the `OPENAI_API_KEY` field. -/
def YOUR_TOKEN_KEY : Str := "YOUR_TOKEN_KEY".data

/-- The placeholder value of the `TASK_PREFIX` field. -/
def YOUR_TASK_PREFIX_VAL : Str := "YOUR_TASK_PREFIX".data

/-- `load_config`, with the parsed file contents and the user's two
possible interactive answers passed in.  The returned flag records whether
`json.dump` wrote the file back; the write happens only inside the branch
that replaces the placeholder task prefix. -/
def load_config (cfg : Config) (keyInput prefInput : Str) : Config × Bool :=
  let c1 :=
    if cfg.openai_api_key = YOUR_TOKEN_KEY then
      { cfg with openai_api_key := keyInput }
    else cfg
  if c1.task_prefix_val = YOUR_TASK_PREFIX_VAL then
    ({ c1 with task_prefix_val := prefInput }, true)
  else (c1, false)

/-- The observable steps of the pipeline.  `eAskConfirm` is the token-count
confirmation prompt; the other events are the seven spec stages. -/
inductive Event where
  | eLoadConfig : Event
  | eGetDiff : Event
  | eBuildRequest : Event
  | eAskConfirm : Event
  | eCallAPI : Event
  | eNormalize : Event
  | ePrefixStage : Event
  | ePromptUser : Event
  | eCommit : Event
deriving DecidableEq

open Event

/-- The environment: results of the external calls and the user's answers.
`diffResult` is the outcome of `subprocess.check_output(GIT_COMMAND)`
(`none` on `CalledProcessError`), `tokenCount` the tiktoken count of the
serialized request, `apiResponse` the parsed body of the HTTP response
(`none` when `send_request_to_openai` caught an exception), `branch` the
current branch name (`none` on failure). -/
structure Env where
  cfg : Config
  diffResult : Option Str
  tokenCount : Nat
  confirmAnswer : Bool
  apiResponse : Option Json
  branch : Option Str

/-- `check_token_count_and_get_confirmation`: build the request, count its
tokens, and ask for confirmation only when the count exceeds
`MAX_TOKEN_COUNT`; below the limit the function returns `True` directly.
The first component is the emitted event trace. -/
def check_token_count_and_get_confirmation (env : Env) : List Event × Bool :=
  if env.cfg.max_token_count < env.tokenCount then
    ([eBuildRequest, eAskConfirm], env.confirmAnswer)
  else ([eBuildRequest], true)

/-- The suggestion list the pipeline produces when the request is sent. -/
def pipelineSuggestions (env : Env) : List Str :=
  add_prefix_to_suggestions env.branch (process_response env.apiResponse)

/-- `get_commit_suggestions`: abort (returning `None`) when the token check
is declined; otherwise rebuild the request, call the API, normalize and
add the branch prefix. -/
def get_commit_suggestions (env : Env) : List Event × Option (List Str) :=
  match check_token_count_and_get_confirmation env with
  | (t, false) => (t, none)
  | (t, true) =>
    (t ++ [eBuildRequest, eCallAPI, eNormalize, ePrefixStage],
     some (pipelineSuggestions env))

/-- `process_diff`: prompt and commit only when `get_commit_suggestions`
returned a truthy (non-`None`, non-empty) list. -/
def process_diff (env : Env) : List Event :=
  match get_commit_suggestions env with
  | (t, none) => t
  | (t, some []) => t
  | (t, some (_ :: _)) => t ++ [ePromptUser, eCommit]

/-- `main`: load the configuration, fetch the diff, and process it only
when the diff is truthy (neither `None` nor the empty string). -/
def runMain (env : Env) : List Event :=
  eLoadConfig :: eGetDiff ::
    (match env.diffResult with
     | some (_ :: _) => process_diff env
     | _ => [])

/-- The position of an event among the seven pipeline stages of the spec
(the configuration load and the confirmation prompt are not stages). -/
def stageIdx : Event → Option Nat
  | eLoadConfig => none
  | eGetDiff => some 0
  | eBuildRequest => some 1
  | eAskConfirm => none
  | eCallAPI => some 2
  | eNormalize => some 3
  | ePrefixStage => some 4
  | ePromptUser => some 5
  | eCommit => some 6

/-- Python truthiness of the diff value: `None` and the empty string are
falsy. -/
def diffTruthy (env : Env) : Bool :=
  match env.diffResult with
  | some (_ :: _) => true
  | _ => false

/-- A list of naturals is in non-decreasing order (used to state that the
pipeline stages appear in the spec's fixed order). -/
def nondecreasing : List Nat → Bool
  | [] => true
  | [_] => true
  | a :: b :: rest => decide (a ≤ b) && nondecreasing (b :: rest)

/-! ### Concrete configurations and environments used by the closed
theorems below -/

/-- A configuration whose key and prefix hold real (non-placeholder)
values. -/
def cfgA : Config :=
  { model_name := "gpt-4".data
  , openai_api_key := "sk-abc".data
  , task_prefix_val := "IOS".data
  , openai_api_url := "https://api.example.com/v1/chat/completions".data
  , max_token_count := 5
  , temperature := 0
  , git_command := ["git".data, "diff".data, "--cached".data]
  , message_template := "template".data }

/-- A configuration with a placeholder key but a real prefix. -/
def cfgKeyOnly : Config :=
  { cfgA with openai_api_key := YOUR_TOKEN_KEY }

/-- A configuration with placeholder key and placeholder prefix. -/
def cfgBothPH : Config :=
  { cfgA with openai_api_key := YOUR_TOKEN_KEY,
              task_prefix_val := YOUR_TASK_PREFIX_VAL }

/-- A well-formed API response holding one suggestion line after the
header line. -/
def responseB : Json :=
  Json.jobj [("choices".data,
    Json.jarr [Json.jobj [("message".data,
      Json.jobj [("content".data, Json.jstr ("hdr\n1. fix stuff".data))])]])]

/-- Run with a truthy diff, a token count under the limit, and a failed
API call. -/
def envA : Env :=
  { cfg := cfgA, diffResult := some ['d'], tokenCount := 1
  , confirmAnswer := false, apiResponse := none, branch := none }

/-- Run with a truthy diff, a token count under the limit, a good response
and a matching branch. -/
def envB : Env :=
  { cfg := cfgA, diffResult := some ['d'], tokenCount := 1
  , confirmAnswer := false, apiResponse := some responseB
  , branch := some ("feature/IOS-7--x".data) }

/-- Run with a token count over the limit that the user declines. -/
def envC : Env :=
  { cfg := cfgA, diffResult := some ['d'], tokenCount := 10
  , confirmAnswer := false, apiResponse := some responseB, branch := none }

/-- Run in which the diff fetch failed. -/
def envD : Env :=
  { cfg := cfgA, diffResult := none, tokenCount := 1
  , confirmAnswer := true, apiResponse := none, branch := none }

/-! ### Lemmas about stripping -/

lemma dropWhile_idem (p : Char → Bool) :
    ∀ l : Str, (l.dropWhile p).dropWhile p = l.dropWhile p
  | [] => rfl
  | c :: rest => by
    by_cases h : p c
    · simp only [List.dropWhile_cons, h, if_true]
      exact dropWhile_idem p rest
    · simp [List.dropWhile_cons, h]

lemma dropWhile_head_false (p : Char → Bool) :
    ∀ (l : Str) (c : Char) (rest : Str),
      List.dropWhile p l = c :: rest → p c = false
  | [], _, _, h => by simp at h
  | c0 :: l, c, rest, h => by
    by_cases hp : p c0
    · simp only [List.dropWhile_cons, hp, if_true] at h
      exact dropWhile_head_false p l c rest h
    · simp only [List.dropWhile_cons, hp, if_false] at h
      obtain ⟨h1, _⟩ := List.cons.inj h
      subst h1
      exact Bool.of_not_eq_true hp

lemma dropWhile_of_head_false (p : Char → Bool) (c : Char) (rest : Str)
    (h : p c = false) : (c :: rest).dropWhile p = c :: rest := by
  simp [List.dropWhile_cons, h]

/-- The result of `stripWs` is a fixed point of `stripWs`. -/
lemma stripWs_stripWs (s : Str) : stripWs (stripWs s) = stripWs s := by
  unfold stripWs
  set u := s.dropWhile isWs with hu
  set v := (u.reverse.dropWhile isWs).reverse with hv
  have hvrev : v.reverse = u.reverse.dropWhile isWs := by
    rw [hv, List.reverse_reverse]
  have hstep1 : v.reverse.dropWhile isWs = v.reverse := by
    rw [hvrev]; exact dropWhile_idem isWs u.reverse
  have hstep2 : v.dropWhile isWs = v := by
    rcases hv2 : v with _ | ⟨c, w⟩
    · rfl
    · -- v is a prefix of u, so its head is the head of u, on which isWs fails
      have hsuff : ∃ t, t ++ v.reverse = u.reverse := by
        refine ⟨u.reverse.takeWhile isWs, ?_⟩
        rw [hvrev]; exact List.takeWhile_append_dropWhile isWs u.reverse
      obtain ⟨t, ht⟩ := hsuff
      have hpre : u = v ++ t.reverse := by
        have := congrArg List.reverse ht
        simpa using this.symm
      have hhead : ∃ u2, u = c :: u2 := by
        rw [hpre, hv2]; exact ⟨w ++ t.reverse, rfl⟩
      obtain ⟨u2, hu2⟩ := hhead
      have hc : isWs c = false := by
        apply dropWhile_head_false isWs s c u2
        rw [← hu, ← hu2]
      rw [hv2] at *
      exact dropWhile_of_head_false isWs c w hc
  rw [hstep2, hstep1, List.reverse_reverse]

/-- `stripWs s` is empty exactly when every character of `s` is whitespace
(in particular when `s` is empty). -/
lemma stripWs_eq_nil_iff (s : Str) : stripWs s = [] ↔ s.all isWs = true := by
  unfold stripWs
  rw [List.reverse_eq_nil_iff, List.dropWhile_eq_nil_iff, List.all_eq_true]
  constructor
  · intro h x hx
    by_cases hxs : x ∈ s.dropWhile isWs
    · exact h x (by simpa using hxs)
    · have hsplit := List.takeWhile_append_dropWhile isWs s
      have : x ∈ s.takeWhile isWs ++ s.dropWhile isWs := by rw [hsplit]; exact hx
      rcases List.mem_append.mp this with h1 | h2
      · exact List.mem_takeWhile_imp h1
      · exact absurd h2 hxs
  · intro h x hx
    have : x ∈ s.dropWhile isWs := by simpa using hx
    exact h x (List.Sublist.mem this (List.dropWhile_sublist isWs))

/-! ### Lemmas about the split functions -/

lemma pySplitChar_ne_nil (c0 : Char) (s : Str) : pySplitChar c0 s ≠ [] := by
  cases s with
  | nil => simp [pySplitChar]
  | cons c rest =>
    by_cases h : c = c0
    · simp [pySplitChar, h]
    · rcases hr : pySplitChar c0 rest with _ | ⟨hh, t⟩ <;>
        simp [pySplitChar, h, hr]

lemma pySplitOn2_ne_nil (c0 c1 : Char) (s : Str) :
    pySplitOn2 c0 c1 s ≠ [] := by
  match s with
  | [] => simp [pySplitOn2]
  | [c] => simp [pySplitOn2]
  | c :: c2 :: rest =>
    by_cases h : c = c0 ∧ c2 = c1
    · simp [pySplitOn2, h]
    · rcases hr : pySplitOn2 c0 c1 (c2 :: rest) with _ | ⟨hh, t⟩ <;>
        simp [pySplitOn2, h, hr]

/-- `s.split(sep)[0]` is the portion of `s` before the first occurrence of
the separator. -/
lemma pySplitOn2_head (c0 c1 : Char) :
    ∀ s : Str, (pySplitOn2 c0 c1 s).headD [] = beforeFirst2 c0 c1 s
  | [] => by simp [pySplitOn2, beforeFirst2]
  | [c] => by simp [pySplitOn2, beforeFirst2]
  | c :: c2 :: rest => by
    by_cases h : c = c0 ∧ c2 = c1
    · simp [pySplitOn2, beforeFirst2, h]
    · have ih := pySplitOn2_head c0 c1 (c2 :: rest)
      rcases hr : pySplitOn2 c0 c1 (c2 :: rest) with _ | ⟨hh, t⟩
      · exact absurd hr (pySplitOn2_ne_nil c0 c1 (c2 :: rest))
      · rw [hr] at ih
        simp [pySplitOn2, beforeFirst2, h, hr, ← ih]

lemma pySplitChar_not_mem (c0 : Char) :
    ∀ s : Str, c0 ∉ s → pySplitChar c0 s = [s]
  | [], _ => by simp [pySplitChar]
  | c :: rest, h => by
    have hc : ¬ c = c0 := fun hh => h (by simp [hh])
    have hrest : c0 ∉ rest := fun hh => h (by simp [hh])
    simp [pySplitChar, hc, pySplitChar_not_mem c0 rest hrest]

lemma afterLast_not_mem (c0 : Char) :
    ∀ s : Str, c0 ∉ s → afterLast c0 s = s
  | [], _ => rfl
  | c :: rest, h => by
    have hc : ¬ c = c0 := fun hh => h (by simp [hh])
    have hrest : c0 ∉ rest := fun hh => h (by simp [hh])
    simp [afterLast, hrest, hc]

lemma pySplitChar_eq_singleton (c0 : Char) :
    ∀ (s h : Str), pySplitChar c0 s = [h] → c0 ∉ s ∧ h = s
  | [], h, he => by
    simp [pySplitChar] at he
    simp [he]
  | c :: rest, h, he => by
    by_cases hc : c = c0
    · simp only [pySplitChar, hc, if_true] at he
      obtain ⟨h1, h2⟩ := List.cons.inj he
      exact absurd h2 (pySplitChar_ne_nil c0 rest)
    · rcases hr : pySplitChar c0 rest with _ | ⟨hh, t⟩
      · exact absurd hr (pySplitChar_ne_nil c0 rest)
      · simp only [pySplitChar, hc, if_false, hr] at he
        obtain ⟨h1, h2⟩ := List.cons.inj he
        subst h2
        obtain ⟨hnm, hhr⟩ := pySplitChar_eq_singleton c0 rest hh hr
        subst hhr
        constructor
        · intro hmem
          rcases List.mem_cons.mp hmem with h3 | h3
          · exact hc h3.symm
          · exact hnm h3
        · exact h1.symm

/-- `s.split(c0)[-1]` is the portion of `s` after the last occurrence of
`c0`. -/
lemma pySplitChar_getLastD (c0 : Char) :
    ∀ s : Str, (pySplitChar c0 s).getLastD [] = afterLast c0 s
  | [] => by simp [pySplitChar, afterLast]
  | c :: rest => by
    have ih := pySplitChar_getLastD c0 rest
    by_cases hc : c = c0
    · rcases hr : pySplitChar c0 rest with _ | ⟨hh, t⟩
      · exact absurd hr (pySplitChar_ne_nil c0 rest)
      · rw [hr] at ih
        by_cases hmem : c0 ∈ rest
        · simp only [pySplitChar, hc, if_true, hr, afterLast, hmem, if_true]
          simpa [List.getLastD_cons] using ih
        · have hal : afterLast c0 rest = rest := afterLast_not_mem c0 rest hmem
          simp only [pySplitChar, hc, if_true, hr, afterLast, hmem, if_false,
            if_true]
          rw [List.getLastD_cons, ih, hal]
    · rcases hr : pySplitChar c0 rest with _ | ⟨hh, t⟩
      · exact absurd hr (pySplitChar_ne_nil c0 rest)
      · rw [hr] at ih
        rcases ht : t with _ | ⟨t1, t2⟩
        · -- split rest = [hh]: rest has no separator
          subst ht
          obtain ⟨hnm, hhr⟩ := pySplitChar_eq_singleton c0 rest hh hr
          subst hhr
          simp [pySplitChar, hc, hr, afterLast, hnm]
        · -- split rest has at least two chunks: rest contains the separator
          subst ht
          have hmem : c0 ∈ rest := by
            by_contra hnm
            have h2 := pySplitChar_not_mem c0 rest hnm
            rw [hr] at h2
            simp at h2
          simp only [pySplitChar, hc, if_false, hr, afterLast, hmem, if_true]
          rw [List.getLastD_cons] at ih ⊢
          rw [List.getLastD_cons] at ih ⊢
          exact ih

/-! ### Lemmas about the pipeline -/

/-- The code's filter condition `s.strip() != ''` accepts exactly the
suggestions that are not whitespace-only. -/
lemma strip_bne_nil (s : Str) : (stripWs s != []) = !(s.all isWs) := by
  by_cases h : stripWs s = []
  · have h2 := (stripWs_eq_nil_iff s).mp h
    simp [h, h2]
  · have h2 : ¬ s.all isWs = true := fun ha => h ((stripWs_eq_nil_iff s).mpr ha)
    simp [h, h2]

lemma add_prefix_to_suggestions_nil (b : Option Str) :
    add_prefix_to_suggestions b [] = [] := by
  rcases b with _ | bb
  · rfl
  · by_cases h : ("feature/IOS-".data).isPrefixOf bb <;>
      simp [add_prefix_to_suggestions, h]

/-- The full case analysis of the trace `main` produces. -/
lemma runMain_spec (env : Env) :
    runMain env =
      [eLoadConfig, eGetDiff]
        ++ (if diffTruthy env then
              (check_token_count_and_get_confirmation env).1
                ++ (if (check_token_count_and_get_confirmation env).2 then
                      [eBuildRequest, eCallAPI, eNormalize, ePrefixStage]
                        ++ (if pipelineSuggestions env = [] then []
                            else [ePromptUser, eCommit])
                    else [])
            else []) := by
  unfold runMain process_diff get_commit_suggestions diffTruthy
  rcases hd : env.diffResult with _ | (_ | ⟨c, d⟩)
  · simp
  · simp
  · by_cases hm : env.cfg.max_token_count < env.tokenCount
    · cases hca : env.confirmAnswer
      · simp [check_token_count_and_get_confirmation, hm, hca]
      · rcases hs : pipelineSuggestions env with _ | ⟨x, xs⟩ <;>
          simp [check_token_count_and_get_confirmation, hm, hca, hs]
    · rcases hs : pipelineSuggestions env with _ | ⟨x, xs⟩ <;>
        simp [check_token_count_and_get_confirmation, hm, hs]

/-- Every run loads the configuration exactly once. -/
lemma count_eLoadConfig (env : Env) :
    (runMain env).count eLoadConfig = 1 := by
  rw [runMain_spec]
  by_cases hd : diffTruthy env
  · by_cases hm : env.cfg.max_token_count < env.tokenCount
    · cases hca : env.confirmAnswer
      · simp [check_token_count_and_get_confirmation, hm, hca, hd]
      · by_cases hs : pipelineSuggestions env = [] <;>
          simp [check_token_count_and_get_confirmation, hm, hca, hd, hs]
    · by_cases hs : pipelineSuggestions env = [] <;>
        simp [check_token_count_and_get_confirmation, hm, hd, hs]
  · simp [hd]

/-! ### Claims -/

/-- C1, counterexample: the claim says the suggestion list consists of all
the lines of the response content (each merely cleaned up), but
`normalize_messages` discards the first line: on the content `"ab\ncd"`,
whose two lines are `"ab"` and `"cd"` and whose first line is already in
fully normalized form, the result is `["cd"]` and not `["ab", "cd"]`. -/
theorem C1_cex :
    normalize_message_filter ("ab".data) = "ab".data
    ∧ pySplitChar '\n' ("ab\ncd".data) = ["ab".data, "cd".data]
    ∧ normalize_messages ("ab\ncd".data) = ["cd".data] := by
  refine ⟨by decide, by decide, by decide⟩

/-- C1, amended: the suggestion list consists of the lines of the response
content other than the first one and other than those of length at most
one, each mapped through the single-message normalizer; every produced
suggestion carries no leading or trailing whitespace. -/
theorem C1_thm (r : Str) :
    normalize_messages r
      = (((pySplitChar '\n' r).drop 1).filter
          (fun m => decide (1 < m.length))).map normalize_message_filter
    ∧ ∀ m : Str, stripWs (normalize_message_filter m)
        = normalize_message_filter m := by
  refine ⟨rfl, fun m => ?_⟩
  exact stripWs_stripWs _

/-- C1, witness: the amended equation evaluated on a concrete response. -/
theorem C1_witness :
    normalize_messages ("x\n ab \ncd".data) = ["ab".data, "cd".data] := by
  have h := (C1_thm ("x\n ab \ncd".data)).1
  rw [h]
  decide

/-- C2: the confirmation prompt appears in the token-check's trace exactly
when the token count of the serialized request (the external tiktoken
count, an input of the model) exceeds `MAX_TOKEN_COUNT`; at or below the
limit the check returns `True` and, when the diff was truthy, the run
reaches the API call without the prompt ever appearing. -/
theorem C2_thm (env : Env) :
    (eAskConfirm ∈ (check_token_count_and_get_confirmation env).1
      ↔ env.cfg.max_token_count < env.tokenCount)
    ∧ (env.tokenCount ≤ env.cfg.max_token_count →
        (check_token_count_and_get_confirmation env).2 = true
        ∧ (diffTruthy env = true →
            eCallAPI ∈ runMain env ∧ eAskConfirm ∉ runMain env)) := by
  constructor
  · by_cases hm : env.cfg.max_token_count < env.tokenCount <;>
      simp [check_token_count_and_get_confirmation, hm]
  · intro hle
    have hm : ¬ env.cfg.max_token_count < env.tokenCount := by omega
    refine ⟨by simp [check_token_count_and_get_confirmation, hm], fun hdt => ?_⟩
    rw [runMain_spec, hdt]
    by_cases hs : pipelineSuggestions env = [] <;>
      simp [check_token_count_and_get_confirmation, hm, hs]

/-- C2, witness: a run under the token limit reaches the API call with no
confirmation prompt. -/
theorem C2_witness :
    (check_token_count_and_get_confirmation envA).2 = true
    ∧ eCallAPI ∈ runMain envA ∧ eAskConfirm ∉ runMain envA := by
  have h := (C2_thm envA).2 (by decide)
  exact ⟨h.1, h.2 (by decide)⟩

/-- C3: on a branch starting with `feature/IOS-` every kept suggestion is
prefixed with the task identifier followed by `": "`, where the task
identifier is the last `/`-separated segment of the portion of the branch
name before the first `--` (`afterLast`/`beforeFirst2` state this
directly, and are proved equal to the code's split computations); on any
other branch nothing is prefixed and the list is returned unchanged. -/
theorem C3_thm (b : Str) (sugg : List Str) :
    (("feature/IOS-".data).isPrefixOf b = true →
      get_prefix_name (some b)
          = afterLast '/' (beforeFirst2 '-' '-' b) ++ (':' :: ' ' :: [])
      ∧ add_prefix_to_suggestions (some b) sugg
          = (sugg.filter (fun s => stripWs s != [])).map
              (fun s => (afterLast '/' (beforeFirst2 '-' '-' b)
                  ++ (':' :: ' ' :: [])) ++ stripWs s))
    ∧ (("feature/IOS-".data).isPrefixOf b = false →
        add_prefix_to_suggestions (some b) sugg = sugg
        ∧ get_prefix_name (some b) = [])
    ∧ add_prefix_to_suggestions none sugg = sugg := by
  have key : ((pySplitChar '/' ((pySplitOn2 '-' '-' b).headD [])).getLastD [])
      = afterLast '/' (beforeFirst2 '-' '-' b) := by
    rw [pySplitOn2_head, pySplitChar_getLastD]
  rw [List.headD_eq_head?_getD, List.getLastD_eq_getLast?] at key
  refine ⟨fun h => ⟨?_, ?_⟩, fun h => ⟨?_, ?_⟩, rfl⟩
  · simp [get_prefix_name, h, key]
  · simp [add_prefix_to_suggestions, h, key]
  · simp [add_prefix_to_suggestions, h]
  · simp [get_prefix_name, h]

/-- C3, witness: the prefixer evaluated on a matching branch with a `--`
part and on a non-matching branch. -/
theorem C3_witness :
    add_prefix_to_suggestions (some ("feature/IOS-42--desc".data))
        [" fix bug ".data] = ["IOS-42: fix bug".data]
    ∧ add_prefix_to_suggestions (some ("main".data)) ["m".data]
        = ["m".data] := by
  have h1 := ((C3_thm ("feature/IOS-42--desc".data) [" fix bug ".data]).1
    (by decide)).2
  have h2 := ((C3_thm ("main".data) ["m".data]).2.1 (by decide)).1
  refine ⟨?_, h2⟩
  rw [h1]
  decide

/-- C4, counterexample: the claim says any newly entered key or prefix is
persisted back to the configuration file, but the file write sits inside
the branch handling the placeholder prefix: on a configuration whose key
is the placeholder while the prefix is a real value, the key is replaced
by the user's input yet nothing is written back. -/
theorem C4_cex :
    cfgKeyOnly.openai_api_key = YOUR_TOKEN_KEY
    ∧ cfgKeyOnly.task_prefix_val ≠ YOUR_TASK_PREFIX_VAL
    ∧ (load_config cfgKeyOnly ("newkey".data) ("p".data)).1.openai_api_key
        = "newkey".data
    ∧ (load_config cfgKeyOnly ("newkey".data) ("p".data)).2 = false := by
  refine ⟨rfl, by decide, by decide, by decide⟩

/-- C4, amended: the configuration is loaded exactly once per run; all
fields other than the key and the prefix are returned unchanged; the key
and the prefix are replaced by user input exactly when they equal their
placeholders; the file is written back exactly when the prefix was the
placeholder (so a newly entered key alone is not persisted). -/
theorem C4_thm (cfg : Config) (k p : Str) :
    ((load_config cfg k p).1.model_name = cfg.model_name
      ∧ (load_config cfg k p).1.openai_api_url = cfg.openai_api_url
      ∧ (load_config cfg k p).1.max_token_count = cfg.max_token_count
      ∧ (load_config cfg k p).1.temperature = cfg.temperature
      ∧ (load_config cfg k p).1.git_command = cfg.git_command
      ∧ (load_config cfg k p).1.message_template = cfg.message_template)
    ∧ ((cfg.openai_api_key = YOUR_TOKEN_KEY →
          (load_config cfg k p).1.openai_api_key = k)
      ∧ (cfg.openai_api_key ≠ YOUR_TOKEN_KEY →
          (load_config cfg k p).1.openai_api_key = cfg.openai_api_key))
    ∧ ((cfg.task_prefix_val = YOUR_TASK_PREFIX_VAL →
          (load_config cfg k p).1.task_prefix_val = p)
      ∧ (cfg.task_prefix_val ≠ YOUR_TASK_PREFIX_VAL →
          (load_config cfg k p).1.task_prefix_val = cfg.task_prefix_val))
    ∧ ((load_config cfg k p).2 = true
        ↔ cfg.task_prefix_val = YOUR_TASK_PREFIX_VAL)
    ∧ (∀ env : Env, (runMain env).count eLoadConfig = 1) := by
  by_cases hk : cfg.openai_api_key = YOUR_TOKEN_KEY <;>
    by_cases hp : cfg.task_prefix_val = YOUR_TASK_PREFIX_VAL <;>
      simp [load_config, hk, hp, count_eLoadConfig]

/-- C4, witness: with both placeholders present, the key and the prefix
are both replaced and the file is written back. -/
theorem C4_witness :
    (load_config cfgBothPH ("k2".data) ("IOS".data)).1.openai_api_key
        = "k2".data
    ∧ (load_config cfgBothPH ("k2".data) ("IOS".data)).1.task_prefix_val
        = "IOS".data
    ∧ (load_config cfgBothPH ("k2".data) ("IOS".data)).2 = true := by
  have h := C4_thm cfgBothPH ("k2".data) ("IOS".data)
  exact ⟨h.2.1.1 rfl, h.2.2.1.1 rfl, h.2.2.2.1.mpr rfl⟩

/-- C5: the trace of every run lists the seven pipeline stages in
non-decreasing stage order; a commit happens only directly after the user
prompt and only when the suggestion list was non-empty; and no commit
happens when the diff was falsy, the token check was declined, or the
suggestion list came back empty. -/
theorem C5_thm (env : Env) :
    nondecreasing ((runMain env).filterMap stageIdx) = true
    ∧ (eCommit ∈ runMain env →
        pipelineSuggestions env ≠ []
        ∧ ∃ pre, runMain env = pre ++ [ePromptUser, eCommit])
    ∧ (diffTruthy env = false → eCommit ∉ runMain env)
    ∧ ((check_token_count_and_get_confirmation env).2 = false →
        eCommit ∉ runMain env)
    ∧ (pipelineSuggestions env = [] → eCommit ∉ runMain env) := by
  cases hd : diffTruthy env
  · have ht : runMain env = [eLoadConfig, eGetDiff] := by
      rw [runMain_spec, hd]
      simp
    refine ⟨by rw [ht]; decide, ?_, fun _ => by rw [ht]; decide,
      fun _ => by rw [ht]; decide, fun _ => by rw [ht]; decide⟩
    intro h
    rw [ht] at h
    exact absurd h (by decide)
  · by_cases hm : env.cfg.max_token_count < env.tokenCount
    · cases hca : env.confirmAnswer
      · have hck : check_token_count_and_get_confirmation env
            = ([eBuildRequest, eAskConfirm], false) := by
          unfold check_token_count_and_get_confirmation
          rw [if_pos hm, hca]
        have ht : runMain env
            = [eLoadConfig, eGetDiff, eBuildRequest, eAskConfirm] := by
          rw [runMain_spec, hd, hck]
          simp
        refine ⟨by rw [ht]; decide, ?_,
          fun h => absurd h (by decide),
          fun _ => by rw [ht]; decide, fun _ => by rw [ht]; decide⟩
        intro h
        rw [ht] at h
        exact absurd h (by decide)
      · have hck : check_token_count_and_get_confirmation env
            = ([eBuildRequest, eAskConfirm], true) := by
          unfold check_token_count_and_get_confirmation
          rw [if_pos hm, hca]
        by_cases hsg : pipelineSuggestions env = []
        · have ht : runMain env = [eLoadConfig, eGetDiff, eBuildRequest,
              eAskConfirm, eBuildRequest, eCallAPI, eNormalize,
              ePrefixStage] := by
            rw [runMain_spec, hd, hck]
            simp [hsg]
          refine ⟨by rw [ht]; decide, ?_,
            fun h => absurd h (by decide),
            fun h => absurd ((congrArg Prod.snd hck).symm.trans h) (by decide),
            fun _ => by rw [ht]; decide⟩
          intro h
          rw [ht] at h
          exact absurd h (by decide)
        · have ht : runMain env = [eLoadConfig, eGetDiff, eBuildRequest,
              eAskConfirm, eBuildRequest, eCallAPI, eNormalize,
              ePrefixStage, ePromptUser, eCommit] := by
            rw [runMain_spec, hd, hck]
            simp [hsg]
          refine ⟨by rw [ht]; decide, fun _ => ⟨hsg, ?_⟩,
            fun h => absurd h (by decide),
            fun h => absurd ((congrArg Prod.snd hck).symm.trans h) (by decide),
            fun hc => absurd hc hsg⟩
          refine ⟨[eLoadConfig, eGetDiff, eBuildRequest, eAskConfirm,
            eBuildRequest, eCallAPI, eNormalize, ePrefixStage], ?_⟩
          rw [ht]
          decide
    · have hck : check_token_count_and_get_confirmation env
          = ([eBuildRequest], true) := by
        unfold check_token_count_and_get_confirmation
        rw [if_neg hm]
      by_cases hsg : pipelineSuggestions env = []
      · have ht : runMain env = [eLoadConfig, eGetDiff, eBuildRequest,
            eBuildRequest, eCallAPI, eNormalize, ePrefixStage] := by
          rw [runMain_spec, hd, hck]
          simp [hsg]
        refine ⟨by rw [ht]; decide, ?_,
          fun h => absurd h (by decide),
          fun h => absurd ((congrArg Prod.snd hck).symm.trans h) (by decide),
          fun _ => by rw [ht]; decide⟩
        intro h
        rw [ht] at h
        exact absurd h (by decide)
      · have ht : runMain env = [eLoadConfig, eGetDiff, eBuildRequest,
            eBuildRequest, eCallAPI, eNormalize, ePrefixStage,
            ePromptUser, eCommit] := by
          rw [runMain_spec, hd, hck]
          simp [hsg]
        refine ⟨by rw [ht]; decide, fun _ => ⟨hsg, ?_⟩,
          fun h => absurd h (by decide),
          fun h => absurd ((congrArg Prod.snd hck).symm.trans h) (by decide),
          fun hc => absurd hc hsg⟩
        refine ⟨[eLoadConfig, eGetDiff, eBuildRequest,
          eBuildRequest, eCallAPI, eNormalize, ePrefixStage], ?_⟩
        rw [ht]
        decide

/-- C5, witness: a full successful run commits after the prompt, and a run
with a failed diff never commits. -/
theorem C5_witness :
    (pipelineSuggestions envB ≠ []
      ∧ ∃ pre, runMain envB = pre ++ [ePromptUser, eCommit])
    ∧ eCommit ∉ runMain envD := by
  exact ⟨(C5_thm envB).2.1 (by decide), (C5_thm envD).2.2.1 (by decide)⟩

/-- C6, counterexample: the claim says a failing wrapped call makes the
caller abort the remaining pipeline steps, but when the API request fails
(`send_request_to_openai` returns `None`) `get_commit_suggestions` does
not abort: it still runs the normalization and prefixing stages on the
failed result, as the trace of `envA` (whose `apiResponse` is `none`)
shows. -/
theorem C6_cex :
    envA.apiResponse = none
    ∧ runMain envA = [eLoadConfig, eGetDiff, eBuildRequest,
        eBuildRequest, eCallAPI, eNormalize, ePrefixStage]
    ∧ eNormalize ∈ runMain envA ∧ ePrefixStage ∈ runMain envA := by
  refine ⟨rfl, by decide, by decide, by decide⟩

/-- C6, amended: each of the three wrapped external calls reports failure
as `None`; a failed diff ends the run immediately after the diff stage; a
failed API call propagates as an empty suggestion list so that the prompt
and the commit are skipped, although the normalization and prefixing
stages still execute; a failed commit returns `None` to a caller that
ignores it (the commit is the final step). -/
theorem C6_thm (env : Env) :
    (env.diffResult = none → runMain env = [eLoadConfig, eGetDiff])
    ∧ process_response none = []
    ∧ (env.apiResponse = none →
        pipelineSuggestions env = []
        ∧ ePromptUser ∉ runMain env ∧ eCommit ∉ runMain env)
    ∧ (env.apiResponse = none → diffTruthy env = true →
        (check_token_count_and_get_confirmation env).2 = true →
        eNormalize ∈ runMain env ∧ ePrefixStage ∈ runMain env) := by
  have hnil : env.apiResponse = none → pipelineSuggestions env = [] := by
    intro ha
    unfold pipelineSuggestions
    rw [ha]
    exact add_prefix_to_suggestions_nil env.branch
  refine ⟨fun h => ?_, rfl, fun ha => ⟨hnil ha, ?_⟩, fun ha hd hc => ?_⟩
  · unfold runMain
    rw [h]
  · rw [runMain_spec]
    by_cases hd : diffTruthy env
    · by_cases hm : env.cfg.max_token_count < env.tokenCount
      · cases hca : env.confirmAnswer <;>
          simp [check_token_count_and_get_confirmation, hm, hca, hd, hnil ha]
      · simp [check_token_count_and_get_confirmation, hm, hd, hnil ha]
    · simp [hd]
  · rw [runMain_spec]
    simp [hd, hc, hnil ha]

/-- C6, witness: a run with a failed diff stops after the diff stage, and
a run with a failed API call still reaches normalization and prefixing
but neither prompts nor commits. -/
theorem C6_witness :
    runMain envD = [eLoadConfig, eGetDiff]
    ∧ eNormalize ∈ runMain envA
    ∧ ePromptUser ∉ runMain envA ∧ eCommit ∉ runMain envA := by
  have h1 := (C6_thm envD).1 rfl
  have h2 := ((C6_thm envA).2.2.2 rfl (by decide) (by decide)).1
  have h3 := ((C6_thm envA).2.2.1 rfl).2
  exact ⟨h1, h2, h3.1, h3.2⟩

/-- C7: the suggestion list is an ordered sequence: `normalize_messages`
produces the normalizations of a sublist of the response's lines in their
original relative order, and the prefixer either returns its input
unchanged or the uniform transformation of a sublist of it in its
original relative order. -/
theorem C7_thm (r : Str) (bo : Option Str) (sugg : List Str) :
    (∃ l : List Str, List.Sublist l (pySplitChar '\n' r)
      ∧ normalize_messages r = l.map normalize_message_filter)
    ∧ (add_prefix_to_suggestions bo sugg = sugg
      ∨ ∃ l : List Str, List.Sublist l sugg
          ∧ add_prefix_to_suggestions bo sugg
            = l.map (fun s => get_prefix_name bo ++ stripWs s)) := by
  constructor
  · refine ⟨((pySplitChar '\n' r).drop 1).filter
      (fun m => decide (1 < m.length)), ?_, rfl⟩
    exact (List.filter_sublist _).trans (List.drop_sublist 1 _)
  · rcases bo with _ | b
    · exact Or.inl rfl
    · by_cases h : ("feature/IOS-".data).isPrefixOf b
      · refine Or.inr ⟨sugg.filter (fun s => stripWs s != []),
          List.filter_sublist _, ?_⟩
        simp [add_prefix_to_suggestions, get_prefix_name, h]
      · exact Or.inl (by simp [add_prefix_to_suggestions, h])

/-- C7, witness: order preservation observed on a concrete response and a
concrete suggestion list. -/
theorem C7_witness :
    normalize_messages ("h\naa\nz\nbb".data) = ["aa".data, "bb".data]
    ∧ add_prefix_to_suggestions (some ("feature/IOS-1".data))
        ["x".data, "y".data] = ["IOS-1: x".data, "IOS-1: y".data] := by
  have h1 := (C7_thm ("h\naa\nz\nbb".data)
    (some ("feature/IOS-1".data)) ["x".data, "y".data]).1
  obtain ⟨l, _, he⟩ := h1
  exact ⟨by decide, by decide⟩

/-- C8: the string normalizers are deterministic functions of their input:
equal inputs give equal outputs for `normalize_message_filter` and hence
for `normalize_messages` (in this embedding both are pure functions, so
determinism is function congruence). -/
theorem C8_thm (s t : Str) (h : s = t) :
    normalize_message_filter s = normalize_message_filter t
    ∧ normalize_messages s = normalize_messages t := by
  subst h
  exact ⟨rfl, rfl⟩

/-- C8, witness: two evaluations on the same concrete input agree. -/
theorem C8_witness :
    normalize_message_filter ("1. fix".data)
        = normalize_message_filter ("1. fix".data)
    ∧ normalize_messages ("a\nbb".data) = normalize_messages ("a\nbb".data) :=
  ⟨(C8_thm ("1. fix".data) ("1. fix".data) rfl).1,
   (C8_thm ("a\nbb".data) ("a\nbb".data) rfl).2⟩

/-- C9: response processing is total at the parse stage: a missing
response gives `[]`, a response whose body lacks the
`choices[0].message.content` path gives `[]`, and a non-empty list arises
only when the path exists (and holds a string). -/
theorem C9_thm :
    process_response none = []
    ∧ (∀ j : Json, pathLookup j = none → process_response (some j) = [])
    ∧ (∀ r : Option Json, process_response r ≠ [] →
        ∃ j s, r = some j ∧ pathLookup j = some (Json.jstr s)) := by
  refine ⟨rfl, fun j h => ?_, fun r h => ?_⟩
  · simp [process_response, extractContent, h]
  · rcases r with _ | j
    · simp [process_response] at h
    · rcases he : extractContent j with _ | s
      · simp [process_response, he] at h
      · refine ⟨j, s, rfl, ?_⟩
        unfold extractContent at he
        rcases hp : pathLookup j with _ | jj
        · rw [hp] at he
          simp at he
        · rw [hp] at he
          rcases jj with _ | _ | _ | s2 | _ | _ <;> simp at he
          rw [he]

/-- C9, witness: a response without the expected path yields the empty
list, and the well-formed response `responseB` yields a non-empty one
whose path is present. -/
theorem C9_witness :
    process_response (some (Json.jobj [])) = []
    ∧ ∃ j s, some responseB = some j ∧ pathLookup j = some (Json.jstr s) := by
  refine ⟨C9_thm.2.1 (Json.jobj []) rfl, C9_thm.2.2 (some responseB) ?_⟩
  decide

/-- C10: on a `feature/IOS-` branch every produced suggestion is non-empty
and starts with the task-id prefix, and exactly the whitespace-only
suggestions are dropped (the kept ones appearing stripped after the
prefix); on a non-matching branch, or when the branch lookup failed, the
input list is returned unchanged, empty entries included. -/
theorem C10_thm (b : Str) (sugg : List Str) :
    (("feature/IOS-".data).isPrefixOf b = true →
      (∀ x ∈ add_prefix_to_suggestions (some b) sugg,
        x ≠ [] ∧ (get_prefix_name (some b)).isPrefixOf x = true)
      ∧ add_prefix_to_suggestions (some b) sugg
          = (sugg.filter (fun s => !(s.all isWs))).map
              (fun s => get_prefix_name (some b) ++ stripWs s))
    ∧ (("feature/IOS-".data).isPrefixOf b = false →
        add_prefix_to_suggestions (some b) sugg = sugg)
    ∧ add_prefix_to_suggestions none sugg = sugg := by
  refine ⟨fun h => ⟨?_, ?_⟩, fun h => by simp [add_prefix_to_suggestions, h],
    rfl⟩
  · intro x hx
    simp only [add_prefix_to_suggestions, h, if_true, List.mem_map,
      List.mem_filter] at hx
    obtain ⟨s, _, hxe⟩ := hx
    constructor
    · rw [← hxe]
      simp
    · rw [← hxe]
      have : get_prefix_name (some b)
          = ((pySplitChar '/' ((pySplitOn2 '-' '-' b).headD [])).getLastD [])
            ++ (':' :: ' ' :: []) := by
        simp [get_prefix_name, h]
      rw [this, List.isPrefixOf_iff_prefix]
      exact List.prefix_append _ _
  · have hc : ∀ s ∈ sugg, (stripWs s != []) = (!(s.all isWs)) :=
      fun s _ => strip_bne_nil s
    rw [← List.filter_congr hc]
    simp [add_prefix_to_suggestions, get_prefix_name, h]

/-- C10, witness: on a matching branch the whitespace-only entry is
dropped and the kept entry carries the prefix; on a non-matching branch
the list, whitespace-only entry included, is unchanged. -/
theorem C10_witness :
    add_prefix_to_suggestions (some ("feature/IOS-9".data))
        ["  ".data, "a".data] = ["IOS-9: a".data]
    ∧ add_prefix_to_suggestions (some ("main".data)) ["  ".data]
        = ["  ".data] := by
  have h1 := ((C10_thm ("feature/IOS-9".data) ["  ".data, "a".data]).1
    (by decide)).2
  have h2 := (C10_thm ("main".data) ["  ".data]).2.1 (by decide)
  refine ⟨?_, h2⟩
  rw [h1]
  decide

end GitCommit
